import Mathlib

/-!
Verification of the odds text-normalization and transformation pipeline of the
OddsScrapper repository.  The Python sources (src/v2/flask_app.py,
src/fixed_championship_scraper.py, src/V1/draftkings/successful_test.py) are
shallowly embedded below: strings are `String` (lists of characters), Python
`int` strings are parsed to `Nat` (with `int()`'s whitespace and underscore
tolerance), and the `int(x * 0.75)` step is modelled as exact integer
arithmetic `x * 3 / 4` together with the `OverflowError` that the int-to-float
conversion raises from `2^1024 - 2^970` on (0.75 is exactly representable, the
product is exact below `2^52 * 4 / 3`, and beyond that both the float and the
exact reduced values are far above the 20000 cap, so the returned string is
unaffected).  All definitions are executable.
-/

namespace OddsScrapper

/-! ## Python string primitives (ASCII model)

`str.strip`, `str.split`, `str.lower`, `str.capitalize`, `' '.join` and the
`in` substring test as used by the sources, modelled on ASCII characters. -/

/-- Whitespace characters recognised by Python `str.strip` / `str.split`:
tab through carriage return, the file/group/record/unit separators 0x1c-0x1f,
space, next line 0x85, and the Unicode space separators. -/
def pyIsSpace (c : Char) : Bool :=
  c.toNat = 32 || (9 ≤ c.toNat && c.toNat ≤ 13) || (28 ≤ c.toNat && c.toNat ≤ 31)
    || c.toNat = 133 || c.toNat = 160 || c.toNat = 5760
    || (8192 ≤ c.toNat && c.toNat ≤ 8202) || c.toNat = 8232 || c.toNat = 8233
    || c.toNat = 8239 || c.toNat = 8287 || c.toNat = 12288

/-- Whitespace characters tolerated around the digits by Python `int()`: the
same set except the separators 0x1c-0x1f, which `int()` rejects although
`str.strip` removes them (`int("\x1c1200")` raises, `"\x1c1200".strip()`
does not). -/
def pyIntIsSpace (c : Char) : Bool :=
  c.toNat = 32 || (9 ≤ c.toNat && c.toNat ≤ 13)
    || c.toNat = 133 || c.toNat = 160 || c.toNat = 5760
    || (8192 ≤ c.toNat && c.toNat ≤ 8202) || c.toNat = 8232 || c.toNat = 8233
    || c.toNat = 8239 || c.toNat = 8287 || c.toNat = 12288

/-- Python `str.lower` on one ASCII character. -/
def pyToLower (c : Char) : Char :=
  if 'A' ≤ c ∧ c ≤ 'Z' then Char.ofNat (c.toNat + 32) else c

/-- Python `str.upper` on one ASCII character. -/
def pyToUpper (c : Char) : Char :=
  if 'a' ≤ c ∧ c ≤ 'z' then Char.ofNat (c.toNat - 32) else c

/-- Drop leading whitespace. -/
def lstrip (cs : List Char) : List Char := cs.dropWhile pyIsSpace

/-- Drop trailing whitespace. -/
def rstrip (cs : List Char) : List Char := (cs.reverse.dropWhile pyIsSpace).reverse

/-- Python `str.strip()`. -/
def pyStrip (cs : List Char) : List Char := rstrip (lstrip cs)

/-- Accumulator worker for `pySplit`; `acc` holds the current word reversed. -/
def splitAux : List Char → List Char → List (List Char)
  | [], acc => if acc = [] then [] else [acc.reverse]
  | c :: cs, acc =>
    if pyIsSpace c then
      if acc = [] then splitAux cs [] else acc.reverse :: splitAux cs []
    else
      splitAux cs (c :: acc)

/-- Python `str.split()` with no argument: split on whitespace runs, no empty
words. -/
def pySplit (cs : List Char) : List (List Char) := splitAux cs []

/-- Python `' '.join(words)`. -/
def joinWords : List (List Char) → List Char
  | [] => []
  | [w] => w
  | w :: ws => w ++ ' ' :: joinWords ws

/-- Python `' '.join(s.split())`: collapse whitespace runs to single spaces and
trim. -/
def collapseWS (cs : List Char) : List Char := joinWords (pySplit cs)

/-- Python `str.capitalize()`: first character uppercased, the rest
lowercased. -/
def capitalizeWord : List Char → List Char
  | [] => []
  | c :: cs => pyToUpper c :: cs.map pyToLower

/-- Python `' '.join(word.capitalize() for word in s.split())`. -/
def titleCaseWords (cs : List Char) : List Char :=
  joinWords ((pySplit cs).map capitalizeWord)

/-- Case-insensitive `str.startswith`: `s.lower().startswith(p.lower())`. -/
def isPrefixCI : List Char → List Char → Bool
  | [], _ => true
  | _ :: _, [] => false
  | p :: ps, c :: cs => (pyToLower c = pyToLower p) && isPrefixCI ps cs

/-- Case-insensitive `str.endswith`: `s.lower().endswith(p.lower())`. -/
def isSuffixCI (p s : List Char) : Bool := isPrefixCI p.reverse s.reverse

/-- Python `needle in hay` for strings: contiguous substring test. -/
def isSubstr (needle : List Char) : List Char → Bool
  | [] => needle.isEmpty
  | c :: cs => needle.isPrefixOf (c :: cs) || isSubstr needle cs

/-! ## Odds transformation (`process_odds`)

Embeds `process_odds` from src/v2/flask_app.py lines 495-523 (identical in
src/V1/draftkings/successful_test.py).  Python's
`int(odds_str.replace('+', '').replace('-', ''))` removes every sign character
anywhere in the string and then parses the remainder with `int()`, which
tolerates surrounding whitespace and single underscores between digits and
raises `ValueError` otherwise (the digits themselves are modelled as ASCII).
The later `int(odds_value * 0.75)` converts the integer to a float first, and
that conversion raises an `OverflowError` — not caught by the
`except (ValueError, AttributeError)` clause — once the magnitude reaches
`2^1024 - 2^970` (the first integer that rounds to infinity). -/

/-- ASCII decimal digit test (code points 48-57). -/
def isAsciiDigit (c : Char) : Bool := 48 ≤ c.toNat && c.toNat ≤ 57

/-- Value of a decimal digit string. -/
def digitsToNat (cs : List Char) : Nat :=
  cs.foldl (fun n c => 10 * n + (c.toNat - 48)) 0

/-- Python's `odds_str.replace('+', '').replace('-', '')`: delete every sign
character, wherever it occurs. -/
def pyStripSigns (cs : List Char) : List Char :=
  cs.filter (fun c => c ≠ '+' ∧ c ≠ '-')

/-- Worker for the digit grammar of Python `int()` literals: the flag says
whether an underscore may come next (it may exactly when the previous
character was a digit).  A digit always continues; an underscore continues
only when allowed and demands a digit right after; the string may end only
in the underscore-allowed state (i.e. after a digit). -/
def digitsUSGo : Bool → List Char → Bool
  | allowUS, [] => allowUS
  | allowUS, c :: rest =>
    if isAsciiDigit c then digitsUSGo true rest
    else if c = '_' then allowUS && digitsUSGo false rest
    else false

/-- The digit grammar of Python `int()` on a sign-free string: a nonempty
digit string with optional single underscores between digits ("1_200" and
"1_2_0_0" parse; "", "_1200", "1200_" and "1__200" raise). -/
def digitsUS (cs : List Char) : Bool := digitsUSGo false cs

/-- The surrounding-whitespace trim performed by Python `int()`. -/
def intStrip (cs : List Char) : List Char :=
  ((cs.dropWhile pyIntIsSpace).reverse.dropWhile pyIntIsSpace).reverse

/-- Python `int(...)` on the sign-free remainder: trim the whitespace
`int()` tolerates, then require the underscore-digit grammar; the value
ignores the underscores. -/
def pyParseNat (cs : List Char) : Option Nat :=
  if digitsUS (intStrip cs) then
    some (digitsToNat ((intStrip cs).filter (fun c => c ≠ '_')))
  else none

/-- The round-down-to-the-5-grid step of `process_odds`: last digit 1-4 rounds
down to 0, last digit 6-9 rounds down to 5, last digit 0 or 5 unchanged. -/
def roundDownGrid (v : Nat) : Nat :=
  if v % 10 = 1 ∨ v % 10 = 2 ∨ v % 10 = 3 ∨ v % 10 = 4 then v - v % 10
  else if v % 10 = 6 ∨ v % 10 = 7 ∨ v % 10 = 8 ∨ v % 10 = 9 then v - v % 10 + 5
  else v

/-- The cap step of `process_odds`: clamp at 20000. -/
def capOdds (v : Nat) : Nat := if v > 20000 then 20000 else v

/-- Numeric core of `process_odds`: reduce by 25% (`int(v * 0.75)` =
`v * 3 / 4` exactly), round down to the 0/5 grid, cap at 20000. -/
def processValue (n : Nat) : Nat := capOdds (roundDownGrid (n * 3 / 4))

/-- `process_odds` on the character list of the input string.  The output sign
is `+` exactly when the input starts with `'+'` (`odds_str.startswith('+')`);
on parse failure the original text is returned unchanged. -/
def process_odds_list (cs : List Char) : List Char :=
  let isPositive : Bool := match cs with | c :: _ => c = '+' | [] => false
  match pyParseNat (pyStripSigns cs) with
  | some n => (if isPositive then '+' else '-') :: (Nat.repr (processValue n)).data
  | none => cs

/-- `process_odds` from src/v2/flask_app.py, on the inputs where no exception
escapes (every input whose parsed magnitude stays below
`floatOverflowBound`; parse failures are caught inside and fail soft). -/
def process_odds (s : String) : String := String.mk (process_odds_list s.data)

/-- The least magnitude whose int-to-float conversion overflows: integers
below `2^1024 - 2^970` round to a finite double, everything from it on rounds
to `2^1024` and `float(n)` — hence `n * 0.75` — raises `OverflowError`. -/
def floatOverflowBound : Nat := 2 ^ 1024 - 2 ^ 970

/-- Does `odds_value * 0.75` raise `OverflowError` for this magnitude? -/
def pyFloatOverflows (n : Nat) : Bool := decide (floatOverflowBound ≤ n)

/-- Message of the `OverflowError` escaping `process_odds` (the `except`
clause catches only `ValueError` and `AttributeError`). -/
def overflowFloatMsg : String := "OverflowError: int too large to convert to float"

/-- `process_odds` with its full control flow, error path included: a parse
failure is caught and fails soft to the original text; a parsed magnitude at
or above `floatOverflowBound` raises the uncaught `OverflowError`; otherwise
the call returns the transformed string of `process_odds`.  (Below the bound
the float product can differ from the exact `n * 3 / 4` only when `n`
exceeds `2^52`, where both the float and the exact reduced values are far
above the 20000 cap, so the capped grid-rounded output is the same string —
the exact-arithmetic fragment is extensionally the source on every
non-raising input.) -/
def process_odds_checked (s : String) : Except String String :=
  match pyParseNat (pyStripSigns s.data) with
  | some n =>
    if pyFloatOverflows n then Except.error overflowFloatMsg
    else Except.ok (process_odds s)
  | none => Except.ok s

/-! ## Sequential 7-digit ID generator

Embeds `SevenDigitIDGenerator` from src/v2/flask_app.py lines 28-60 (identical
in src/V1/draftkings/successful_test.py).  The mutable `_current_id` field is
passed explicitly; `raise` is modelled with `Except`. -/

/-- Message of the `ValueError` raised by `__init__` on an out-of-range start. -/
def invalidStartMsg : String := "Start ID must be a 7-digit number (1000000-9999999)"

/-- Message of the `OverflowError` raised by `get_next_id` past 9999999. -/
def overflowMsg : String :=
  "Maximum 7-digit ID (9999999) reached. Cannot generate more unique IDs."

/-- `SevenDigitIDGenerator.__init__`: requires a 7-digit start, stores
`start_id - 1`. -/
def sevenDigitInit (start : Nat) : Except String Nat :=
  if 1000000 ≤ start ∧ start ≤ 9999999 then Except.ok (start - 1)
  else Except.error invalidStartMsg

/-- `SevenDigitIDGenerator.get_next_id`: increment the stored counter, then
fail if it exceeds 9999999.  Returns the new counter state together with the
call's outcome. -/
def get_next_id (cur : Nat) : Nat × Except String Nat :=
  let c := cur + 1
  (c, if c > 9999999 then Except.error overflowMsg else Except.ok c)

/-- Outcome of the `(k+1)`-st consecutive `get_next_id` call starting from
counter state `cur`. -/
def nthNextId (cur : Nat) : Nat → Except String Nat
  | 0 => (get_next_id cur).2
  | k + 1 => nthNextId (get_next_id cur).1 k

/-! ## Name cleaning (`clean_team_name`, src/v2/flask_app.py lines 325-405)

The cleaner strips noise prefixes (bounded loop of 5 passes, first matching
prefix per pass), then noise suffixes (each tried once, in order), collapses
whitespace, and finally applies seven anchored case-insensitive regex
substitutions, stripping after each.  The regexes run on an already
whitespace-collapsed string, so `\s` runs are single `' '` characters there;
the functions below implement the regexes on arbitrary character lists with
`\s` as any ASCII whitespace. -/

/-- The `unwanted_prefixes` list of v2 `clean_team_name`, in source order. -/
def v2UnwantedPrefixes : List String :=
  ["Finish", "To Finish", "To Win", "Winner", "Champion", "Top", "Place",
   "Position", "AMRACE Winner", "AMRACE", "Race Winner", "Race", "Finish ",
   "Finish To", "Finish Winner", "Finish Lando", "Finish Max", "Finish Oscar",
   "Finish George", "Finish Charles", "Finish Lewis"]

/-- The `unwanted_suffixes` list shared by both cleaners, in source order. -/
def unwantedSuffixes : List String :=
  ["Finish", "Winner", "Champion", "To Win", "To Finish"]

/-- One pass of the prefix loop: find the first prefix in the list matching
case-insensitively at the start, remove it and strip; `none` when no prefix
matches (the loop breaks). -/
def stripFirstPrefixOf : List String → List Char → Option (List Char)
  | [], _ => none
  | p :: ps, cs =>
    if isPrefixCI p.data cs then some (pyStrip (cs.drop p.data.length))
    else stripFirstPrefixOf ps cs

/-- The bounded prefix-stripping loop (`for iteration in range(5)`), stopping
early when a pass removes nothing. -/
def prefixLoop (ps : List String) : Nat → List Char → List Char
  | 0, cs => cs
  | k + 1, cs =>
    match stripFirstPrefixOf ps cs with
    | none => cs
    | some cs2 => prefixLoop ps k cs2

/-- The suffix pass: each suffix tried once in order against the current
value; on a case-insensitive match the suffix is cut and the result
stripped. -/
def applySuffixes (ss : List String) (cs : List Char) : List Char :=
  ss.foldl
    (fun cur suf =>
      if isSuffixCI suf.data cur then pyStrip (cur.take (cur.length - suf.data.length))
      else cur)
    cs

/-- Consume one-or-more whitespace (`\s+`): requires a leading whitespace
character, then drops the whole run. -/
def dropSpacesOne (cs : List Char) : Option (List Char) :=
  match cs with
  | c :: rest => if pyIsSpace c then some (rest.dropWhile pyIsSpace) else none
  | [] => none

/-- Regex `^Finish\s*` (IGNORECASE): remove a leading "finish" and following
whitespace. -/
def patFinishStart (cs : List Char) : List Char :=
  if isPrefixCI "finish".data cs then (cs.drop 6).dropWhile pyIsSpace else cs

/-- Regex `\s+Finish$` (IGNORECASE): remove a trailing "finish" preceded by at
least one whitespace character, together with that whitespace run. -/
def patFinishEnd (cs : List Char) : List Char :=
  let r := cs.reverse
  if isPrefixCI "finish".data.reverse r then
    match r.drop 6 with
    | c :: rest =>
      if pyIsSpace c then ((c :: rest).dropWhile pyIsSpace).reverse else cs
    | [] => cs
  else cs

/-- Regex `^To\s+Finish\s+` (IGNORECASE). -/
def patToFinish (cs : List Char) : List Char :=
  if isPrefixCI "to".data cs then
    match dropSpacesOne (cs.drop 2) with
    | some r1 =>
      if isPrefixCI "finish".data r1 then
        match dropSpacesOne (r1.drop 6) with
        | some r2 => r2
        | none => cs
      else cs
    | none => cs
  else cs

/-- Regex `^To\s+Win\s+` (IGNORECASE). -/
def patToWin (cs : List Char) : List Char :=
  if isPrefixCI "to".data cs then
    match dropSpacesOne (cs.drop 2) with
    | some r1 =>
      if isPrefixCI "win".data r1 then
        match dropSpacesOne (r1.drop 3) with
        | some r2 => r2
        | none => cs
      else cs
    | none => cs
  else cs

/-- Regexes `^AMRace\s+Winner\s*` and `^AMRACE\s+Winner\s*` (identical under
IGNORECASE). -/
def patAmraceWinner (cs : List Char) : List Char :=
  if isPrefixCI "amrace".data cs then
    match dropSpacesOne (cs.drop 6) with
    | some r1 =>
      if isPrefixCI "winner".data r1 then (r1.drop 6).dropWhile pyIsSpace else cs
    | none => cs
  else cs

/-- Regex `^Race\s+Winner\s*` (IGNORECASE). -/
def patRaceWinner (cs : List Char) : List Char :=
  if isPrefixCI "race".data cs then
    match dropSpacesOne (cs.drop 4) with
    | some r1 =>
      if isPrefixCI "winner".data r1 then (r1.drop 6).dropWhile pyIsSpace else cs
    | none => cs
  else cs

/-- The seven `re.sub(pattern, '', ..., flags=IGNORECASE).strip()` steps of v2
`clean_team_name`, in source order (the AMRace pattern appears twice). -/
def applyPatterns (cs : List Char) : List Char :=
  let c1 := pyStrip (patFinishStart cs)
  let c2 := pyStrip (patFinishEnd c1)
  let c3 := pyStrip (patToFinish c2)
  let c4 := pyStrip (patToWin c3)
  let c5 := pyStrip (patAmraceWinner c4)
  let c6 := pyStrip (patAmraceWinner c5)
  pyStrip (patRaceWinner c6)

/-- `clean_team_name` from src/v2/flask_app.py: falsy input returned as is,
then strip, the 5-pass prefix loop, the suffix pass, whitespace collapse, and
the regex substitutions. -/
def clean_team_name (s : String) : String :=
  if s = "" then s
  else
    String.mk (applyPatterns (collapseWS
      (applySuffixes unwantedSuffixes
        (prefixLoop v2UnwantedPrefixes 5 (pyStrip s.data)))))

/-! ## Name normalization (`normalize_driver_name`, src/v2/flask_app.py
lines 407-432) -/

/-- The `f1_drivers` canonical roster of v2 `normalize_driver_name`, in source
order (already lowercase in the source). -/
def f1_drivers : List String :=
  ["lando norris", "max verstappen", "oscar piastri", "george russell",
   "charles leclerc", "lewis hamilton", "carlos sainz", "alexander albon",
   "andrea kimi antonelli", "isack hadjar", "fernando alonso", "sergio perez",
   "valtteri bottas", "esteban ocon", "pierre gasly", "yuki tsunoda",
   "kevin magnussen", "nico hulkenberg", "lance stroll", "logan sargeant"]

/-- `normalize_driver_name` from src/v2/flask_app.py: falsy input returned as
is; otherwise clean, then return the Title-Case form of the first known driver
that occurs as a substring of the lowercased cleaned name, or the cleaned name
itself when no driver matches. -/
def normalize_driver_name (name : String) : String :=
  if name = "" then name
  else
    match f1_drivers.find?
        (fun d => isSubstr d.data ((clean_team_name name).data.map pyToLower)) with
    | some d => String.mk (titleCaseWords d.data)
    | none => clean_team_name name

/-! ## Records and deduplication (`remove_duplicate_drivers`,
src/v2/flask_app.py lines 434-454) -/

/-- One scraped odds record: the dict
`\x7b"team": ..., "odds": ..., "original_odds": ...\x7d` used throughout
src/v2/flask_app.py. -/
structure Entry where
  team : String
  odds : String
  original_odds : String
deriving DecidableEq

/-- Worker of `remove_duplicate_drivers` with the `seen_drivers` set made
explicit: a record is kept when its normalized name is truthy (non-empty) and
unseen, and the kept record's `team` is overwritten with the normalized
name. -/
def remove_duplicate_drivers_go (seen : List String) : List Entry → List Entry
  | [] => []
  | e :: rest =>
    if normalize_driver_name e.team ≠ "" ∧ normalize_driver_name e.team ∉ seen then
      { e with team := normalize_driver_name e.team }
        :: remove_duplicate_drivers_go (normalize_driver_name e.team :: seen) rest
    else
      remove_duplicate_drivers_go seen rest

/-- `remove_duplicate_drivers` from src/v2/flask_app.py. -/
def remove_duplicate_drivers (l : List Entry) : List Entry :=
  remove_duplicate_drivers_go [] l

/-- Specification-side first-occurrence deduplication, written from the
spec's words: keep the first element of each distinct name, drop every later
element with the same name. -/
def dedupKeepFirst : List String → List String
  | [] => []
  | n :: rest => n :: dedupKeepFirst (rest.filter (fun m => m ≠ n))
termination_by l => l.length
decreasing_by
  simp only [List.length_cons]
  exact Nat.lt_succ_of_le (List.length_filter_le _ _)

/-! ## Betting-line grouping (src/v2/flask_app.py lines 456-493 and 726-785)

`scrape_multi_line_tournament` deduplicates the flat scraped list, calls
`ensure_all_players_have_entries` on it with the betting lines, and then
builds each line's group with `filter_odds_by_betting_line`. -/

/-- `ensure_all_players_have_entries` from src/v2/flask_app.py: for each
betting line it recomputes the set of players that "already have entries"
as the players of the current data whose team is in the full roster, and
appends empty-odds entries for roster players missing from that set.  (After
deduplication every entry carries its team, so the missing set is computed
relative to the whole data, not to the line.) -/
def ensure_all_players_have_entries (all_odds_data : List Entry)
    (betting_lines : List String) : List Entry :=
  if all_odds_data = [] then all_odds_data
  else
    let all_players := all_odds_data.map (fun e => e.team)
    betting_lines.foldl
      (fun acc _line =>
        let existing := (acc.filter (fun e => all_players.contains e.team)).map
          (fun e => e.team)
        let missing := all_players.filter (fun p => ¬ existing.contains p)
        acc ++ missing.map (fun p => { team := p, odds := "", original_odds := "" }))
      all_odds_data

/-- The `exclusion_patterns` dict of `filter_odds_by_betting_line`
(`.get(line_name, [])`). -/
def exclusion_patterns (line_name : String) : List String :=
  if line_name = "Winner" then []
  else if line_name = "Top 2" then
    ["winner", "win", "champion", "amrace winner", "race winner", "amrace"]
  else if line_name = "Top 4" then
    ["winner", "win", "champion", "amrace winner", "race winner", "top 2",
     "top2", "podium", "amrace"]
  else if line_name = "Top 5" then
    ["winner", "win", "champion", "amrace winner", "race winner", "top 2",
     "top2", "podium", "top 4", "top4", "amrace"]
  else if line_name = "Top 10" then
    ["winner", "win", "champion", "amrace winner", "race winner", "top 2",
     "top2", "podium", "top 4", "top4", "top 5", "top5", "amrace"]
  else []

/-- The cross-tournament indicator fragments of `filter_odds_by_betting_line`. -/
def tournament_indicators : List String :=
  ["las vegas", "miami", "monaco", "silverstone", "spa", "monza"]

/-- Per-entry loop of `filter_odds_by_betting_line`: drop entries whose
lowercased team contains an exclusion pattern or a tournament indicator;
entries kept but lacking odds are replaced by an empty-odds entry. -/
def filterLineGo (pats : List String) : List Entry → List Entry
  | [] => []
  | e :: rest =>
    let tl := e.team.data.map pyToLower
    if pats.any (fun p => isSubstr p.data tl)
        || tournament_indicators.any (fun p => isSubstr p.data tl) then
      filterLineGo pats rest
    else if e.odds = "" ∨ e.original_odds = "" then
      { team := e.team, odds := "", original_odds := "" } :: filterLineGo pats rest
    else
      e :: filterLineGo pats rest

/-- `filter_odds_by_betting_line` from src/v2/flask_app.py.  The
`tournament_type` argument is accepted but, as in the source, never used for
filtering. -/
def filter_odds_by_betting_line (odds_data : List Entry) (line_name : String)
    (_tournament_type : String) : List Entry :=
  if odds_data = [] then []
  else filterLineGo (exclusion_patterns line_name) odds_data

/-! ## Conference even-split grouping (`scrape_conference_odds`,
src/v2/flask_app.py lines 1329-1367)

The DOM extraction is the excluded scraping layer; the grouping logic splits
the assembled teams list at `len(teams) // 2` into the NFC and AFC groups. -/

/-- One conference group of `scrape_conference_odds`. -/
structure ConferenceGroup where
  conference : String
  teams : List Entry
deriving DecidableEq

/-- Team assembly of `scrape_conference_odds`: pair the scraped team texts
with the scraped odds texts (the comprehension's `i < len(odds_spans)` bound
is the zip), processing each odds value. -/
def assembleConferenceTeams (team_texts odds_texts : List String) : List Entry :=
  (team_texts.zip odds_texts).map
    (fun p => { team := p.1, odds := process_odds p.2, original_odds := p.2 })

/-- The even-split grouping of `scrape_conference_odds`: first half (floor
midpoint) is the NFC group, the rest the AFC group. -/
def scrape_conference_split (teams : List Entry) : List ConferenceGroup :=
  let mid := teams.length / 2
  [{ conference := "NFC", teams := teams.take mid },
   { conference := "AFC", teams := teams.drop mid }]

/-! ## The fixed championship scraper's cleaner and normalizer
(src/fixed_championship_scraper.py lines 12-62)

This variant strips at most one prefix (no loop), runs the same suffix pass,
collapses whitespace (no regex substitutions), and its normalizer Title-Cases
the cleaned name, falling back to the minimally-cleaned original when cleaning
leaves fewer than 2 characters. -/

namespace FixedScraper

/-- The `unwanted_prefixes` list of the fixed scraper's `clean_team_name`. -/
def fixedUnwantedPrefixes : List String :=
  ["Finish", "To Finish", "To Win", "Winner", "Champion", "Top", "Place",
   "Position", "AMRACE Winner", "AMRACE", "Race Winner", "Race", "Finish ",
   "Finish To", "Finish Winner"]

/-- `clean_team_name` from src/fixed_championship_scraper.py: strip, one
prefix removal (first match), the suffix pass, whitespace collapse. -/
def clean_team_name (s : String) : String :=
  if s = "" then s
  else
    let c0 := pyStrip s.data
    let c1 := match stripFirstPrefixOf fixedUnwantedPrefixes c0 with
      | none => c0
      | some c => c
    String.mk (collapseWS (applySuffixes unwantedSuffixes c1))

/-- `normalize_driver_name` from src/fixed_championship_scraper.py (the
`tournament_type` argument does not affect the result): clean, and if the
cleaned name is falsy or shorter than 2 characters after stripping, fall back
to the whitespace-trimmed, per-word-capitalized original; otherwise Title-Case
the cleaned name. -/
def normalize_driver_name (name : String) : String :=
  if name = "" then name
  else
    let cleaned := (clean_team_name name).data
    if cleaned = [] ∨ (pyStrip cleaned).length < 2 then
      String.mk (titleCaseWords (pyStrip name.data))
    else
      String.mk (titleCaseWords cleaned)

end FixedScraper

/-! ## Helper lemmas -/

/-- The grid-and-cap invariant of the numeric core: whatever the reduced
magnitude is, rounding leaves a last digit of 0 or 5 and capping bounds it by
20000. -/
theorem processValue_grid (n : Nat) :
    (processValue n % 10 = 0 ∨ processValue n % 10 = 5) ∧ processValue n ≤ 20000 := by
  unfold processValue capOdds roundDownGrid
  split_ifs <;> omega

/-- An ASCII digit is not a sign character. -/
theorem isAsciiDigit_ne_sign {c : Char} (h : isAsciiDigit c = true) :
    c ≠ '+' ∧ c ≠ '-' := by
  constructor <;> rintro rfl <;> exact absurd h (by decide)

/-- Deleting sign characters from an all-digit string changes nothing. -/
theorem pyStripSigns_of_digits {ds : List Char} (h : ds.all isAsciiDigit = true) :
    pyStripSigns ds = ds := by
  unfold pyStripSigns
  rw [List.filter_eq_self]
  intro a ha
  have hd := List.all_eq_true.mp h a ha
  have := isAsciiDigit_ne_sign hd
  simp [this.1, this.2]

/-- An ASCII digit is not whitespace for `int()`. -/
theorem isAsciiDigit_not_intSpace {c : Char} (h : isAsciiDigit c = true) :
    pyIntIsSpace c = false := by
  simp only [isAsciiDigit, Bool.and_eq_true, decide_eq_true_eq] at h
  simp only [pyIntIsSpace, Bool.or_eq_false_iff, Bool.and_eq_false_iff,
    decide_eq_false_iff_not]
  omega

/-- An ASCII digit is not an underscore. -/
theorem isAsciiDigit_ne_underscore {c : Char} (h : isAsciiDigit c = true) :
    c ≠ '_' := by
  rintro rfl
  exact absurd h (by decide)

/-- `int()`'s whitespace trim leaves a nonempty all-digit string unchanged. -/
theorem intStrip_of_digits {ds : List Char} (h : ds.all isAsciiDigit = true) :
    intStrip ds = ds := by
  have hdrop : ∀ l : List Char, l.all isAsciiDigit = true →
      l.dropWhile pyIntIsSpace = l := by
    intro l hl
    cases l with
    | nil => rfl
    | cons c cs =>
      have hc := List.all_eq_true.mp hl c (List.mem_cons_self _ _)
      rw [List.dropWhile_cons_of_neg]
      simp [isAsciiDigit_not_intSpace hc]
  unfold intStrip
  rw [hdrop ds h, hdrop ds.reverse (by simpa using h), List.reverse_reverse]

/-- A nonempty all-digit string satisfies the `int()` digit grammar. -/
theorem digitsUS_of_digits {ds : List Char} (h2 : ds ≠ [])
    (h3 : ds.all isAsciiDigit = true) : digitsUS ds = true := by
  have hgo : ∀ l : List Char, l.all isAsciiDigit = true →
      digitsUSGo true l = true := by
    intro l
    induction l with
    | nil => intro _; rfl
    | cons c cs ih =>
      intro hl
      have hc := List.all_eq_true.mp hl c (List.mem_cons_self _ _)
      have hcs : cs.all isAsciiDigit = true :=
        List.all_eq_true.mpr (fun a ha => List.all_eq_true.mp hl a (List.mem_cons_of_mem _ ha))
      rw [digitsUSGo, if_pos hc]
      exact ih hcs
  cases ds with
  | nil => exact absurd rfl h2
  | cons c cs =>
    have hc := List.all_eq_true.mp h3 c (List.mem_cons_self _ _)
    have hcs : cs.all isAsciiDigit = true :=
      List.all_eq_true.mpr (fun a ha => List.all_eq_true.mp h3 a (List.mem_cons_of_mem _ ha))
    unfold digitsUS
    rw [digitsUSGo, if_pos hc]
    exact hgo cs hcs

/-- `int()` on a nonempty all-digit string yields its decimal value. -/
theorem pyParseNat_digits {ds : List Char} (h2 : ds ≠ [])
    (h3 : ds.all isAsciiDigit = true) : pyParseNat ds = some (digitsToNat ds) := by
  unfold pyParseNat
  rw [intStrip_of_digits h3, if_pos (digitsUS_of_digits h2 h3)]
  have : ds.filter (fun c => c ≠ '_') = ds := by
    rw [List.filter_eq_self]
    intro a ha
    simpa using isAsciiDigit_ne_underscore (List.all_eq_true.mp h3 a ha)
  rw [this]

/-- Closed form of `nthNextId`: the `(k+1)`-st consecutive call from counter
state `cur` yields `cur + k + 1`, or the overflow error past `9999999`. -/
theorem nthNextId_eq (k : Nat) : ∀ cur : Nat,
    nthNextId cur k =
      if cur + k + 1 ≤ 9999999 then Except.ok (cur + k + 1)
      else Except.error overflowMsg := by
  induction k with
  | zero =>
    intro cur
    show (if cur + 1 > 9999999 then Except.error overflowMsg else Except.ok (cur + 1)) = _
    by_cases h : cur + 1 > 9999999
    · rw [if_pos h, if_neg (by omega)]
    · rw [if_neg h, if_pos (by omega)]
  | succ k ih =>
    intro cur
    show nthNextId (cur + 1) k = _
    rw [ih (cur + 1)]
    have h : cur + 1 + k + 1 = cur + (k + 1) + 1 := by omega
    rw [h]

/-! ## Claim theorems -/

/-- Claim C1: the odds transformation maps the six literal examples of the
spec to exactly the literal outputs: "+475" to "+355", "+650" to "+485",
"+784" to "+585", "+456" to "+340", "-1200" to "-900" and "+30000" to
"+20000". -/
theorem process_odds_examples :
    process_odds "+475" = "+355" ∧ process_odds "+650" = "+485"
    ∧ process_odds "+784" = "+585" ∧ process_odds "+456" = "+340"
    ∧ process_odds "-1200" = "-900" ∧ process_odds "+30000" = "+20000" := by
  decide

/-- On a sign-then-digits input the sign strip leaves the digits and the
parse succeeds. -/
theorem pyParseNat_stripped (sign : Char) (ds : List Char)
    (h1 : sign = '+' ∨ sign = '-') (h2 : ds ≠ []) (h3 : ds.all isAsciiDigit = true) :
    pyParseNat (pyStripSigns (sign :: ds)) = some (digitsToNat ds) := by
  have hstrip : pyStripSigns (sign :: ds) = ds := by
    unfold pyStripSigns
    rw [List.filter_cons_of_neg, ← pyStripSigns, pyStripSigns_of_digits h3]
    rcases h1 with rfl | rfl <;> simp
  rw [hstrip, pyParseNat_digits h2 h3]

/-- The non-raising fragment on a sign-then-digits input: the output
reattaches the sign to the processed magnitude. -/
theorem process_odds_valid_eq (sign : Char) (ds : List Char)
    (h1 : sign = '+' ∨ sign = '-') (h2 : ds ≠ []) (h3 : ds.all isAsciiDigit = true) :
    process_odds (String.mk (sign :: ds))
      = String.mk (sign :: (Nat.repr (processValue (digitsToNat ds))).data) := by
  unfold process_odds process_odds_list
  rw [show (String.mk (sign :: ds)).data = sign :: ds from rfl,
    pyParseNat_stripped sign ds h1 h2 h3]
  rcases h1 with rfl | rfl <;> simp

set_option maxRecDepth 8192 in
/-- Claim C2 counterexample: the valid odds string "+999…9" (four hundred
nines) does not get a transformed value at all: its magnitude reaches the
int-to-float overflow bound, so the transform raises an uncaught
`OverflowError` instead of establishing the grid-and-cap invariant. -/
theorem process_odds_overflow_counterexample :
    process_odds_checked (String.mk ('+' :: List.replicate 400 '9'))
        = Except.error overflowFloatMsg
    ∧ List.replicate 400 '9' ≠ []
    ∧ (List.replicate 400 '9').all isAsciiDigit = true :=
  ⟨by rfl, by decide, by decide⟩

/-- Claim C2 (amended): for every valid odds string of the form
sign-then-digits whose magnitude is below the int-to-float overflow bound
`2^1024 - 2^970`, the transform succeeds, the output reattaches the sign to
the processed magnitude, and that magnitude is congruent to 0 or 5 modulo 10
and bounded by 20000, regardless of the sign; from the bound on, the
transform instead raises an uncaught `OverflowError`. -/
theorem process_odds_grid_invariant (sign : Char) (ds : List Char)
    (h1 : sign = '+' ∨ sign = '-') (h2 : ds ≠ []) (h3 : ds.all isAsciiDigit = true) :
    (digitsToNat ds < floatOverflowBound →
      process_odds_checked (String.mk (sign :: ds))
          = Except.ok (String.mk (sign :: (Nat.repr (processValue (digitsToNat ds))).data))
      ∧ (processValue (digitsToNat ds) % 10 = 0 ∨ processValue (digitsToNat ds) % 10 = 5)
      ∧ processValue (digitsToNat ds) ≤ 20000)
    ∧ (floatOverflowBound ≤ digitsToNat ds →
      process_odds_checked (String.mk (sign :: ds)) = Except.error overflowFloatMsg) := by
  have hparse := pyParseNat_stripped sign ds h1 h2 h3
  have hdata : (String.mk (sign :: ds)).data = sign :: ds := rfl
  constructor
  · intro hlt
    have hov : pyFloatOverflows (digitsToNat ds) = false := by
      simp only [pyFloatOverflows, decide_eq_false_iff_not]
      omega
    refine ⟨?_, processValue_grid (digitsToNat ds)⟩
    unfold process_odds_checked
    simp only [hdata, hparse, hov, Bool.false_eq_true, if_false]
    rw [process_odds_valid_eq sign ds h1 h2 h3]
  · intro hge
    have hov : pyFloatOverflows (digitsToNat ds) = true := by
      simpa [pyFloatOverflows] using hge
    unfold process_odds_checked
    simp only [hdata, hparse, hov, if_true]

/-- Claim C2 witness: the invariant at the concrete valid odds string
"+475", whose magnitude is far below the overflow bound. -/
theorem process_odds_grid_invariant_witness :
    (digitsToNat ['4', '7', '5'] < floatOverflowBound →
      process_odds_checked (String.mk ['+', '4', '7', '5'])
          = Except.ok (String.mk ('+' :: (Nat.repr (processValue (digitsToNat ['4', '7', '5']))).data))
      ∧ (processValue (digitsToNat ['4', '7', '5']) % 10 = 0
         ∨ processValue (digitsToNat ['4', '7', '5']) % 10 = 5)
      ∧ processValue (digitsToNat ['4', '7', '5']) ≤ 20000)
    ∧ (floatOverflowBound ≤ digitsToNat ['4', '7', '5'] →
      process_odds_checked (String.mk ['+', '4', '7', '5'])
          = Except.error overflowFloatMsg) :=
  process_odds_grid_invariant '+' ['4', '7', '5'] (Or.inl rfl) (by decide) (by decide)

/-- Claim C4: construction of the sequential ID generator succeeds exactly on
7-digit starts, and (for a valid start `s`) the n-th `get_next_id` call
returns `s + n - 1` while that value stays within 9999999, and raises the
overflow error otherwise. -/
theorem sevenDigit_id_spec (s n : Nat) (hs1 : 1000000 ≤ s) (hs2 : s ≤ 9999999)
    (hn : 1 ≤ n) :
    sevenDigitInit s = Except.ok (s - 1)
    ∧ (∀ t : Nat, ¬ (1000000 ≤ t ∧ t ≤ 9999999) →
        sevenDigitInit t = Except.error invalidStartMsg)
    ∧ nthNextId (s - 1) (n - 1)
        = if s + n - 1 ≤ 9999999 then Except.ok (s + n - 1)
          else Except.error overflowMsg := by
  refine ⟨?_, ?_, ?_⟩
  · unfold sevenDigitInit
    rw [if_pos ⟨hs1, hs2⟩]
  · intro t ht
    unfold sevenDigitInit
    rw [if_neg ht]
  · rw [nthNextId_eq]
    have h : s - 1 + (n - 1) + 1 = s + n - 1 := by omega
    rw [h]

/-- Claim C4 witness: from start 9999998 the first call returns 9999998, the
second 9999999, and the third raises the overflow error. -/
theorem sevenDigit_id_spec_witness :
    (nthNextId (9999998 - 1) (1 - 1)
      = if 9999998 + 1 - 1 ≤ 9999999 then Except.ok (9999998 + 1 - 1)
        else Except.error overflowMsg)
    ∧ (nthNextId (9999998 - 1) (2 - 1)
      = if 9999998 + 2 - 1 ≤ 9999999 then Except.ok (9999998 + 2 - 1)
        else Except.error overflowMsg)
    ∧ (nthNextId (9999998 - 1) (3 - 1)
      = if 9999998 + 3 - 1 ≤ 9999999 then Except.ok (9999998 + 3 - 1)
        else Except.error overflowMsg) :=
  ⟨(sevenDigit_id_spec 9999998 1 (by decide) (by decide) (by decide)).2.2,
   (sevenDigit_id_spec 9999998 2 (by decide) (by decide) (by decide)).2.2,
   (sevenDigit_id_spec 9999998 3 (by decide) (by decide) (by decide)).2.2⟩

/-- Claim C6 evaluation at the failing input: on the one-entity roster
"Darwin" (odds "+100") with the golf betting lines, the placeholder-creating
pass returns its input unchanged (its missing-player computation compares the
roster with itself), and the "Top 5" group is empty because "darwin" contains
the exclusion fragment "win" — the rostered entity is omitted from the line's
group instead of appearing with empty odds. -/
theorem betting_line_roster_incomplete :
    ensure_all_players_have_entries
        [{ team := "Darwin", odds := "+100", original_odds := "+100" }]
        ["Winner", "Top 5", "Top 10"]
      = [{ team := "Darwin", odds := "+100", original_odds := "+100" }]
    ∧ filter_odds_by_betting_line
        [{ team := "Darwin", odds := "+100", original_odds := "+100" }]
        "Top 5" "golf"
      = [] := by decide

/-- Claim C7: the even-split conference grouping always produces exactly the
two groups NFC and AFC, their concatenation is the input sequence, the first
has floor-half size and the second the remaining (larger on odd lengths)
half. -/
theorem even_split_groups (l : List Entry) :
    ∃ t1 t2,
      scrape_conference_split l
        = [{ conference := "NFC", teams := t1 }, { conference := "AFC", teams := t2 }]
      ∧ t1 ++ t2 = l
      ∧ t1.length = l.length / 2
      ∧ t2.length = l.length - l.length / 2 := by
  refine ⟨l.take (l.length / 2), l.drop (l.length / 2), rfl,
    List.take_append_drop _ _, ?_, ?_⟩
  · rw [List.length_take]
    exact Nat.min_eq_left (Nat.div_le_self _ _)
  · rw [List.length_drop]

/-! ## Deduplication lemmas -/

/-- Every record kept by the deduplication worker has a non-empty (already
normalized) team name. -/
theorem go_team_ne_empty (l : List Entry) : ∀ (seen : List String),
    ∀ e ∈ remove_duplicate_drivers_go seen l, e.team ≠ "" := by
  induction l with
  | nil =>
    intro seen e he
    simp [remove_duplicate_drivers_go] at he
  | cons a rest ih =>
    intro seen e he
    by_cases h : normalize_driver_name a.team ≠ "" ∧ normalize_driver_name a.team ∉ seen
    · rw [remove_duplicate_drivers_go, if_pos h] at he
      rcases List.mem_cons.mp he with rfl | hmem
      · exact h.1
      · exact ih _ e hmem
    · rw [remove_duplicate_drivers_go, if_neg h] at he
      exact ih _ e he

/-- A name already in the seen set never reappears among the kept teams. -/
theorem go_team_not_seen (l : List Entry) : ∀ (seen : List String) (x : String),
    x ∈ seen → x ∉ (remove_duplicate_drivers_go seen l).map Entry.team := by
  induction l with
  | nil =>
    intro seen x _
    simp [remove_duplicate_drivers_go]
  | cons a rest ih =>
    intro seen x hx
    by_cases h : normalize_driver_name a.team ≠ "" ∧ normalize_driver_name a.team ∉ seen
    · rw [remove_duplicate_drivers_go, if_pos h]
      simp only [List.map_cons, List.mem_cons, not_or]
      constructor
      · rintro rfl
        exact h.2 hx
      · exact ih _ x (List.mem_cons_of_mem _ hx)
    · rw [remove_duplicate_drivers_go, if_neg h]
      exact ih _ x hx

/-- The kept team names are pairwise distinct. -/
theorem go_team_nodup (l : List Entry) : ∀ (seen : List String),
    ((remove_duplicate_drivers_go seen l).map Entry.team).Nodup := by
  induction l with
  | nil =>
    intro seen
    simp [remove_duplicate_drivers_go]
  | cons a rest ih =>
    intro seen
    by_cases h : normalize_driver_name a.team ≠ "" ∧ normalize_driver_name a.team ∉ seen
    · rw [remove_duplicate_drivers_go, if_pos h]
      simp only [List.map_cons, List.nodup_cons]
      exact ⟨go_team_not_seen rest _ _ (List.mem_cons_self _ _), ih _⟩
    · rw [remove_duplicate_drivers_go, if_neg h]
      exact ih _

/-- The deduplicated list is a sublist of the input with normalized names
written back, so relative order is preserved. -/
theorem go_sublist (l : List Entry) : ∀ (seen : List String),
    List.Sublist (remove_duplicate_drivers_go seen l)
      (l.map (fun e => { e with team := normalize_driver_name e.team })) := by
  induction l with
  | nil =>
    intro seen
    simp [remove_duplicate_drivers_go]
  | cons a rest ih =>
    intro seen
    by_cases h : normalize_driver_name a.team ≠ "" ∧ normalize_driver_name a.team ∉ seen
    · rw [remove_duplicate_drivers_go, if_pos h]
      exact List.Sublist.cons₂ _ (ih _)
    · rw [remove_duplicate_drivers_go, if_neg h]
      exact List.Sublist.cons _ (ih _)

/-- The kept team names are exactly the first occurrences of the non-empty,
not-yet-seen normalized names, in input order. -/
theorem go_team_eq_dedupKeepFirst (l : List Entry) : ∀ (seen : List String),
    (remove_duplicate_drivers_go seen l).map Entry.team
      = dedupKeepFirst
          (((l.map fun e => normalize_driver_name e.team).filter
            (fun n => n ≠ "" ∧ n ∉ seen))) := by
  induction l with
  | nil =>
    intro seen
    simp [remove_duplicate_drivers_go, dedupKeepFirst]
  | cons a rest ih =>
    intro seen
    by_cases h1 : normalize_driver_name a.team = ""
    · rw [remove_duplicate_drivers_go, if_neg (by simp [h1])]
      rw [ih seen]
      congr 1
      simp [h1]
    · by_cases h2 : normalize_driver_name a.team ∈ seen
      · rw [remove_duplicate_drivers_go, if_neg (by simp [h2])]
        rw [ih seen]
        congr 1
        simp [h2]
      · rw [remove_duplicate_drivers_go, if_pos ⟨h1, h2⟩]
        simp only [List.map_cons]
        rw [List.filter_cons_of_pos (by simp [h1, h2])]
        rw [dedupKeepFirst]
        rw [ih (normalize_driver_name a.team :: seen)]
        congr 1
        rw [List.filter_filter]
        congr 1
        apply List.filter_congr
        intro b _
        by_cases hb1 : b = "" <;> by_cases hb2 : b = normalize_driver_name a.team
          <;> by_cases hb3 : b ∈ seen
          <;> simp [hb1, hb2, hb3]

/-- Claim C5 counterexample: a record whose (distinct) normalized name is
empty — the team label "Winner" cleans to the empty string — is not kept as
the first record of its name: deduplication returns the empty list on the
one-record input. -/
theorem remove_duplicate_drops_first :
    remove_duplicate_drivers
        [{ team := "Winner", odds := "+100", original_odds := "+100" }] = []
    ∧ normalize_driver_name "Winner" = "" := by decide

/-- Claim C5 (amended): deduplication keeps exactly the first record of each
distinct non-empty normalized name (records normalizing to the empty string
are dropped entirely): the output is no longer than the input, no two output
records share a name, the output is an order-preserving sublist of the
normalized input, and its names are the first occurrences of the non-empty
normalized names. -/
theorem remove_duplicate_spec (l : List Entry) :
    (remove_duplicate_drivers l).length ≤ l.length
    ∧ ((remove_duplicate_drivers l).map Entry.team).Nodup
    ∧ (remove_duplicate_drivers l).map Entry.team
        = dedupKeepFirst ((l.map fun e => normalize_driver_name e.team).filter
            (fun n => n ≠ ""))
    ∧ List.Sublist (remove_duplicate_drivers l)
        (l.map fun e => { e with team := normalize_driver_name e.team }) := by
  refine ⟨?_, go_team_nodup l [], ?_, go_sublist l []⟩
  · have h := (go_sublist l []).length_le
    rw [List.length_map] at h
    exact h
  · rw [remove_duplicate_drivers, go_team_eq_dedupKeepFirst l []]
    congr 1
    apply List.filter_congr
    intro b _
    simp

/-- Claim C10: deduplication silently loses every record whose normalized
name is empty: every surviving record has a non-empty name, and an input
consisting only of records with empty normalized names produces the empty
output — not even first occurrences survive. -/
theorem remove_duplicate_drops_empty_names (l : List Entry) :
    (∀ e ∈ remove_duplicate_drivers l, e.team ≠ "")
    ∧ ((∀ e ∈ l, normalize_driver_name e.team = "") →
        remove_duplicate_drivers l = []) := by
  constructor
  · exact go_team_ne_empty l []
  · intro h
    rw [remove_duplicate_drivers]
    have : ∀ seen : List String, remove_duplicate_drivers_go seen l = [] := by
      induction l with
      | nil => intro seen; rfl
      | cons a rest ih =>
        intro seen
        have ha : normalize_driver_name a.team = "" := h a (List.mem_cons_self _ _)
        rw [remove_duplicate_drivers_go, if_neg (by simp [ha])]
        exact ih (fun e he => h e (List.mem_cons_of_mem _ he)) seen
    exact this []

/-- Claim C10 witness: the single record labelled "Winner" (whose normalized
name is empty) disappears. -/
theorem remove_duplicate_drops_empty_names_witness :
    remove_duplicate_drivers
        [{ team := "Winner", odds := "+200", original_odds := "+200" }] = [] :=
  (remove_duplicate_drops_empty_names
      [{ team := "Winner", odds := "+200", original_odds := "+200" }]).2
    (by decide)

/-! ## Idempotence of the cleaning-plus-normalization pipeline -/

/-- Every canonical driver name is a fixed point of the pipeline: cleaning
its Title-Case form changes nothing and it matches itself (and no other
driver) in the roster scan. -/
theorem f1_driver_roundtrip : ∀ d ∈ f1_drivers,
    normalize_driver_name (clean_team_name (String.mk (titleCaseWords d.data)))
      = String.mk (titleCaseWords d.data) := by decide

/-- Claim C8 counterexample: with twelve nested "Top " noise prefixes the
bounded prefix loop (5 passes per cleaning) leaves strippable prefixes
behind, so a second pipeline application still changes the result. -/
theorem pipeline_not_idempotent :
    normalize_driver_name (clean_team_name (normalize_driver_name (clean_team_name
        "Top Top Top Top Top Top Top Top Top Top Top Top Ab")))
      ≠ normalize_driver_name (clean_team_name
        "Top Top Top Top Top Top Top Top Top Top Top Top Ab") := by decide

/-- Claim C8 (amended): the pipeline `normalize after clean` is idempotent on
every input whose cleaning has stabilized, i.e. whenever
`clean (clean x) = clean x`; inputs with more nested noise prefixes than the
bounded prefix loop removes in two cleanings escape the guarantee. -/
theorem pipeline_idempotent_of_stable (x : String)
    (h : clean_team_name (clean_team_name x) = clean_team_name x) :
    normalize_driver_name (clean_team_name (normalize_driver_name (clean_team_name x)))
      = normalize_driver_name (clean_team_name x) := by
  by_cases hy : clean_team_name x = ""
  · have hc0 : clean_team_name "" = "" := by simp [clean_team_name]
    have h0 : normalize_driver_name "" = "" := by simp [normalize_driver_name]
    rw [hy, h0, hc0, h0]
  · have hNy : normalize_driver_name (clean_team_name x)
        = match f1_drivers.find? (fun d => isSubstr d.data
            ((clean_team_name (clean_team_name x)).data.map pyToLower)) with
          | some d => String.mk (titleCaseWords d.data)
          | none => clean_team_name (clean_team_name x) := by
      unfold normalize_driver_name
      rw [if_neg hy]
    cases hf : f1_drivers.find? (fun d => isSubstr d.data
        ((clean_team_name (clean_team_name x)).data.map pyToLower)) with
    | some d =>
      have hmem : d ∈ f1_drivers := List.mem_of_find?_eq_some hf
      have hval : normalize_driver_name (clean_team_name x)
          = String.mk (titleCaseWords d.data) := by rw [hNy, hf]
      rw [hval]
      exact f1_driver_roundtrip d hmem
    | none =>
      have hval : normalize_driver_name (clean_team_name x) = clean_team_name x := by
        rw [hNy, hf, h]
      rw [hval, h]
      exact hval

/-- Claim C8 witness: at the concrete input "Finish Max Verstappen" (whose
cleaning stabilizes after one pass) the pipeline is idempotent. -/
theorem pipeline_idempotent_of_stable_witness :
    normalize_driver_name (clean_team_name (normalize_driver_name (clean_team_name
        "Finish Max Verstappen")))
      = normalize_driver_name (clean_team_name "Finish Max Verstappen") :=
  pipeline_idempotent_of_stable "Finish Max Verstappen" (by decide)

/-! ## Non-emptiness of the fixed scraper's normalizer -/

/-- Splitting yields a word whenever the input has a non-whitespace character
or a word is pending in the accumulator. -/
theorem splitAux_ne_nil (cs : List Char) : ∀ acc : List Char,
    (cs.any (fun c => !pyIsSpace c) = true ∨ acc ≠ []) → splitAux cs acc ≠ [] := by
  induction cs with
  | nil =>
    intro acc h
    rcases h with h | h
    · simp at h
    · simp [splitAux, h]
  | cons c cs ih =>
    intro acc h
    by_cases hsp : pyIsSpace c
    · have hany : cs.any (fun c => !pyIsSpace c) = true ∨ acc ≠ [] := by
        rcases h with h | h
        · left
          simpa [hsp] using h
        · right
          exact h
      by_cases hacc : acc = []
      · rw [splitAux, if_pos hsp, if_pos hacc]
        rcases hany with hany | hany
        · exact ih [] (Or.inl hany)
        · exact absurd hacc hany
      · rw [splitAux, if_pos hsp, if_neg hacc]
        simp
    · rw [splitAux, if_neg hsp]
      exact ih (c :: acc) (Or.inr (by simp))

/-- Every word produced by splitting is non-empty (flushes of the accumulator
are guarded by its non-emptiness). -/
theorem splitAux_mem_ne_nil (cs : List Char) : ∀ (acc : List Char),
    ∀ w ∈ splitAux cs acc, w ≠ [] := by
  induction cs with
  | nil =>
    intro acc w hw
    by_cases hacc : acc = []
    · rw [splitAux, if_pos hacc] at hw
      simp at hw
    · rw [splitAux, if_neg hacc] at hw
      simp only [List.mem_singleton] at hw
      subst hw
      simpa using hacc
  | cons c cs ih =>
    intro acc w hw
    by_cases hsp : pyIsSpace c
    · by_cases hacc : acc = []
      · rw [splitAux, if_pos hsp, if_pos hacc] at hw
        exact ih [] w hw
      · rw [splitAux, if_pos hsp, if_neg hacc] at hw
        rcases List.mem_cons.mp hw with rfl | hw2
        · simpa using hacc
        · exact ih [] w hw2
    · rw [splitAux, if_neg hsp] at hw
      exact ih (c :: acc) w hw

/-- Capitalizing preserves non-emptiness. -/
theorem capitalizeWord_ne_nil {w : List Char} (h : w ≠ []) :
    capitalizeWord w ≠ [] := by
  cases w with
  | nil => exact absurd rfl h
  | cons c cs => simp [capitalizeWord]

/-- Joining a non-empty list of non-empty words is non-empty. -/
theorem joinWords_ne_nil : ∀ ws : List (List Char),
    ws ≠ [] → (∀ w ∈ ws, w ≠ []) → joinWords ws ≠ [] := by
  intro ws hne hmem
  match ws with
  | [w] =>
    show w ≠ []
    exact hmem w (List.mem_singleton_self _)
  | w :: w2 :: rest =>
    show w ++ ' ' :: joinWords (w2 :: rest) ≠ []
    intro habs
    rcases List.append_eq_nil.mp habs with ⟨-, h2⟩
    simp at h2

/-- Title-casing a string with a non-whitespace character is non-empty. -/
theorem titleCaseWords_ne_nil {cs : List Char}
    (h : cs.any (fun c => !pyIsSpace c) = true) : titleCaseWords cs ≠ [] := by
  unfold titleCaseWords
  apply joinWords_ne_nil
  · intro habs
    rw [List.map_eq_nil_iff] at habs
    exact splitAux_ne_nil cs [] (Or.inl h) habs
  · intro w hw
    rcases List.mem_map.mp hw with ⟨w0, hw0, rfl⟩
    exact capitalizeWord_ne_nil (splitAux_mem_ne_nil cs [] w0 hw0)

/-- Dropping leading whitespace preserves the presence of a non-whitespace
character. -/
theorem any_nonspace_lstrip (cs : List Char) :
    (lstrip cs).any (fun c => !pyIsSpace c) = cs.any (fun c => !pyIsSpace c) := by
  induction cs with
  | nil => rfl
  | cons c cs ih =>
    by_cases hsp : pyIsSpace c
    · have hstep : lstrip (c :: cs) = lstrip cs := by
        unfold lstrip
        exact List.dropWhile_cons_of_pos hsp
      rw [hstep, ih]
      simp [hsp]
    · have hstep : lstrip (c :: cs) = c :: cs := by
        unfold lstrip
        exact List.dropWhile_cons_of_neg hsp
      rw [hstep]

/-- Stripping preserves the presence of a non-whitespace character. -/
theorem any_nonspace_pyStrip (cs : List Char) :
    (pyStrip cs).any (fun c => !pyIsSpace c) = cs.any (fun c => !pyIsSpace c) := by
  show ((lstrip ((lstrip cs).reverse)).reverse).any _ = _
  rw [List.any_reverse, any_nonspace_lstrip, List.any_reverse, any_nonspace_lstrip]

/-- Dropping a whitespace run from an all-whitespace string leaves nothing. -/
theorem dropWhile_space_eq_nil {cs : List Char}
    (h : ∀ c ∈ cs, pyIsSpace c = true) : cs.dropWhile pyIsSpace = [] := by
  induction cs with
  | nil => rfl
  | cons c cs ih =>
    rw [List.dropWhile_cons_of_pos (h c (List.mem_cons_self _ _))]
    exact ih (fun b hb => h b (List.mem_cons_of_mem _ hb))

/-- A string whose strip is non-empty has a non-whitespace character. -/
theorem any_nonspace_of_pyStrip_ne_nil {cs : List Char} (h : pyStrip cs ≠ []) :
    cs.any (fun c => !pyIsSpace c) = true := by
  by_contra hno
  have hall : ∀ c ∈ cs, pyIsSpace c = true := by
    intro c hc
    have := List.any_eq_false.mp (Bool.eq_false_iff.mpr hno) c hc
    simpa using this
  have hl : lstrip cs = [] := dropWhile_space_eq_nil hall
  have : pyStrip cs = [] := by
    unfold pyStrip rstrip
    rw [hl]
    rfl
  exact h this

/-- Claim C9 counterexample: the whitespace-only label " " is non-empty, yet
the fixed scraper's normalizer returns the empty string for it (cleaning
yields "", and the fallback's trim-and-capitalize of " " is also empty). -/
theorem fixed_normalize_empty_on_space :
    FixedScraper.normalize_driver_name " " = "" ∧ (" " : String) ≠ "" := by decide

/-- Claim C9 (amended): for every label containing at least one
non-whitespace character the fixed scraper's normalizer returns a non-empty
string; and whenever cleaning leaves an empty or shorter-than-2-character
result, the cleaning is discarded and the result is the original string with
only whitespace trimming and per-word capitalization applied. -/
theorem fixed_normalize_nonempty (s : String)
    (h : s.data.any (fun c => !pyIsSpace c) = true) :
    FixedScraper.normalize_driver_name s ≠ ""
    ∧ (((FixedScraper.clean_team_name s).data = []
        ∨ (pyStrip (FixedScraper.clean_team_name s).data).length < 2) →
       FixedScraper.normalize_driver_name s
         = String.mk (titleCaseWords (pyStrip s.data))) := by
  have hs : s ≠ "" := by
    intro he
    subst he
    simp at h
  have hbody : FixedScraper.normalize_driver_name s
      = if (FixedScraper.clean_team_name s).data = []
           ∨ (pyStrip (FixedScraper.clean_team_name s).data).length < 2 then
          String.mk (titleCaseWords (pyStrip s.data))
        else String.mk (titleCaseWords (FixedScraper.clean_team_name s).data) := by
    unfold FixedScraper.normalize_driver_name
    rw [if_neg hs]
  by_cases hc : (FixedScraper.clean_team_name s).data = []
      ∨ (pyStrip (FixedScraper.clean_team_name s).data).length < 2
  · rw [hbody, if_pos hc]
    refine ⟨?_, fun _ => rfl⟩
    intro habs
    have hnil : titleCaseWords (pyStrip s.data) = [] := by
      have := congrArg String.data habs
      simpa using this
    exact titleCaseWords_ne_nil (by rw [any_nonspace_pyStrip]; exact h) hnil
  · rw [hbody, if_neg hc]
    constructor
    · intro habs
      have hnil : titleCaseWords (FixedScraper.clean_team_name s).data = [] := by
        have := congrArg String.data habs
        simpa using this
      push_neg at hc
      have hlen : 2 ≤ (pyStrip (FixedScraper.clean_team_name s).data).length := hc.2
      have hne : pyStrip (FixedScraper.clean_team_name s).data ≠ [] := by
        intro hx
        rw [hx] at hlen
        simp at hlen
      exact titleCaseWords_ne_nil (any_nonspace_of_pyStrip_ne_nil hne) hnil
    · intro hcc
      exact absurd hcc hc

/-- Claim C9 witness: the label " Winner " (which cleans to the empty string)
falls back to the trimmed capitalized original "Winner", a non-empty
result. -/
theorem fixed_normalize_nonempty_witness :
    FixedScraper.normalize_driver_name " Winner " ≠ ""
    ∧ (((FixedScraper.clean_team_name " Winner ").data = []
        ∨ (pyStrip (FixedScraper.clean_team_name " Winner ").data).length < 2) →
       FixedScraper.normalize_driver_name " Winner "
         = String.mk (titleCaseWords (pyStrip " Winner ".data))) :=
  fixed_normalize_nonempty " Winner " (by decide)

end OddsScrapper
